import Mathlib

/-!
Verification of the terrain chunk mesh builder of `src/terrain/chunk.rs`
(crate `cheese`).

The mesh builder is pure straight-line arithmetic over `f32`/`f64`; we embed
it over `ℚ` (exact arithmetic).  The quaternion `Quat::from_rotation_x(π/4)`
is only ever applied to vectors of the form `(0, h, 0)`, where it yields
`(0, h·cos(π/4), h·sin(π/4))`; since `cos(π/4)` is irrational we keep the two
trigonometric constants as symbolic parameters `c45 s45 : ℚ` threaded through
the embedding — every claim below holds for all values of these parameters.
The noise sampler `noise.get([x, z])` is an external black box called only at
integer-valued coordinates, embedded as an arbitrary function `ℤ × ℤ → ℚ`.
-/

namespace Cheese

/-- Rational stand-in for glam `Vec3` (exact arithmetic in place of `f32`). -/
structure Vec3 where
  x : ℚ
  y : ℚ
  z : ℚ
  deriving DecidableEq, Repr

/-- Componentwise addition, glam `Vec3 + Vec3`. -/
def Vec3.add (a b : Vec3) : Vec3 := ⟨a.x + b.x, a.y + b.y, a.z + b.z⟩

/-- Componentwise subtraction, glam `Vec3 - Vec3`. -/
def Vec3.sub (a b : Vec3) : Vec3 := ⟨a.x - b.x, a.y - b.y, a.z - b.z⟩

/-- Scalar multiplication, glam `Vec3 * f32`. -/
def Vec3.smul (a : Vec3) (t : ℚ) : Vec3 := ⟨a.x * t, a.y * t, a.z * t⟩

/-- glam `Vec3::lerp(self, rhs, s) = self + (rhs - self) * s`. -/
def Vec3.lerp (a b : Vec3) (t : ℚ) : Vec3 := a.add ((b.sub a).smul t)

/-- Bevy `Vec3::Y`, the world up axis `(0, 1, 0)`. -/
def Vec3.up : Vec3 := ⟨0, 1, 0⟩

/-- The `TerrainChunk` component (chunk.rs lines 16-23).  Rust field types:
`quad_size : Vec2` (`f32` pair), `chunk_size : (u16, u16)`,
`origin_vertex : (i32, i32)`, `noise_seed : u32`. -/
structure TerrainChunk where
  quad_size : ℚ × ℚ
  chunk_size : ℕ × ℕ
  origin_vertex : ℤ × ℤ
  noise_seed : ℕ
  deriving DecidableEq, Repr

/-- Rust `chunk_size.0`, the number of quads along x (columns). -/
def TerrainChunk.cols (tc : TerrainChunk) : ℕ := tc.chunk_size.1

/-- Rust `chunk_size.1`, the number of quads along z (rows). -/
def TerrainChunk.rows (tc : TerrainChunk) : ℕ := tc.chunk_size.2

/-- `let tx = x as f32 / self.chunk_size.0 as f32 - 0.5` (line 60). -/
def TerrainChunk.tx (tc : TerrainChunk) (x : ℕ) : ℚ :=
  (x : ℚ) / (tc.cols : ℚ) - 1/2

/-- `let x_position = tx * self.chunk_size.0 as f32 * self.quad_size.x` (line 61). -/
def TerrainChunk.x_position (tc : TerrainChunk) (x : ℕ) : ℚ :=
  tc.tx x * (tc.cols : ℚ) * tc.quad_size.1

/-- `let z_position = z as f32 * self.quad_size.y` (line 62). -/
def TerrainChunk.z_position (tc : TerrainChunk) (z : ℕ) : ℚ :=
  (z : ℚ) * tc.quad_size.2

/-- The global noise sample coordinate (lines 64-67):
`sample_x = x + origin_vertex.0 * chunk_size.0`,
`sample_z = chunk_size.1 - z + origin_vertex.1 * chunk_size.1`.
The local loop counters `x`, `z` are nonnegative `i32` values; the arithmetic
is `i32`, embedded in `ℤ`. -/
def TerrainChunk.sampleCoord (tc : TerrainChunk) (z x : ℕ) : ℤ × ℤ :=
  ((x : ℤ) + tc.origin_vertex.1 * (tc.cols : ℤ),
   (tc.rows : ℤ) - (z : ℤ) + tc.origin_vertex.2 * (tc.rows : ℤ))

/-- `let sloped_noise = slope * Vec3::new(0., noise_sample, 0.)` (line 69),
where `slope = Quat::from_rotation_x(FRAC_PI_4)` (line 55).  Rotating
`(0, h, 0)` about the x axis by `π/4` yields `(0, h·cos(π/4), h·sin(π/4))`;
`c45` and `s45` stand for the two trigonometric constants. -/
def sloped_noise (c45 s45 h : ℚ) : Vec3 := ⟨0, h * c45, h * s45⟩

/-- `let sloped_position = Vec3::new(x_position, -z_position, z_position)` (line 71). -/
def TerrainChunk.sloped_position (tc : TerrainChunk) (z x : ℕ) : Vec3 :=
  ⟨tc.x_position x, -(tc.z_position z), tc.z_position z⟩

/-- `let unsloped_position = Vec3::new(x_position, 0., z_position)` (line 72). -/
def TerrainChunk.unsloped_position (tc : TerrainChunk) (z x : ℕ) : Vec3 :=
  ⟨tc.x_position x, 0, tc.z_position z⟩

/-- `let target_position = sloped_position + sloped_noise` (line 73),
as a function of the sampled height `h`. -/
def TerrainChunk.target_position (tc : TerrainChunk) (c45 s45 : ℚ) (z x : ℕ) (h : ℚ) : Vec3 :=
  (tc.sloped_position z x).add (sloped_noise c45 s45 h)

/-- `let chunk_z_ratio = (chunk_size.1 as f32 - z as f32) / chunk_size.1 as f32`
(lines 80-81). -/
def TerrainChunk.chunk_z_ratio (tc : TerrainChunk) (z : ℕ) : ℚ :=
  ((tc.rows : ℚ) - (z : ℚ)) / (tc.rows : ℚ)

/-- The position pushed for vertex `(z, x)` as a function of the sampled
height `h`: the three-way branch on `origin_vertex.1` (lines 75-93). -/
def TerrainChunk.posFromHeight (tc : TerrainChunk) (c45 s45 : ℚ) (z x : ℕ) (h : ℚ) : Vec3 :=
  if 0 < tc.origin_vertex.2 then
    tc.unsloped_position z x
  else if tc.origin_vertex.2 = 0 then
    (tc.target_position c45 s45 z x h).lerp (tc.unsloped_position z x) (tc.chunk_z_ratio z)
  else
    tc.target_position c45 s45 z x h

/-- The position pushed for vertex `(z, x)`: the body samples the noise once
(`noise.get([sample_x, sample_z])`, line 68) and feeds the height into the
branch. -/
def TerrainChunk.vertexPosition (tc : TerrainChunk) (noise : ℤ × ℤ → ℚ)
    (c45 s45 : ℚ) (z x : ℕ) : Vec3 :=
  tc.posFromHeight c45 s45 z x (noise (tc.sampleCoord z x))

/-- The UV pushed for vertex `(z, x)` (lines 95-98):
`[tx, (z % (chunk_size.1 + 1)) as f32 / chunk_size.1 as f32]`. -/
def TerrainChunk.vertexUV (tc : TerrainChunk) (z x : ℕ) : ℚ × ℚ :=
  (tc.tx x, ((z % (tc.rows + 1) : ℕ) : ℚ) / (tc.rows : ℚ))

/-- The six indices pushed for quad `(z, x)` (lines 101-113):
`row_offset = chunk_size.0 + 1`, `quad_index = row_offset * z + x`, then the
right triangle `(quad_index+row_offset+1, quad_index+1, quad_index+row_offset)`
and the left triangle `(quad_index, quad_index+row_offset, quad_index+1)`.
The values are `u32`; for `u16` grid dimensions they never exceed `2^32 - 1`,
so `ℕ` is a faithful embedding. -/
def quadIndices (cols z x : ℕ) : List ℕ :=
  let row_offset := cols + 1
  let quad_index := row_offset * z + x
  [quad_index + row_offset + 1, quad_index + 1, quad_index + row_offset,
   quad_index, quad_index + row_offset, quad_index + 1]

/-- The four attribute buffers produced by `generate_mesh` (lines 117-121). -/
structure Mesh where
  positions : List Vec3
  normals : List Vec3
  uvs : List (ℚ × ℚ)
  indices : List ℕ
  deriving DecidableEq, Repr

/-- `TerrainChunk::generate_mesh` (lines 46-122).  The Rust loop nest pushes,
for `z` in `0..=rows` and `x` in `0..=cols`, one position, one normal and one
UV per vertex, and, for `z` in `0..rows` and `x` in `0..cols`, six indices per
quad; each buffer is the concatenation of its pushes in loop order. -/
def TerrainChunk.generate_mesh (tc : TerrainChunk) (noise : ℤ × ℤ → ℚ)
    (c45 s45 : ℚ) : Mesh :=
  { positions := (List.range (tc.rows + 1)).flatMap fun z =>
      (List.range (tc.cols + 1)).map fun x => tc.vertexPosition noise c45 s45 z x
    normals := (List.range (tc.rows + 1)).flatMap fun _ =>
      (List.range (tc.cols + 1)).map fun _ => Vec3.up
    uvs := (List.range (tc.rows + 1)).flatMap fun z =>
      (List.range (tc.cols + 1)).map fun x => tc.vertexUV z x
    indices := (List.range tc.rows).flatMap fun z =>
      (List.range tc.cols).flatMap fun x => quadIndices tc.cols z x }

/-- The sequence of coordinates passed to `noise.get`, in call order: the
vertex loop makes exactly one call per iteration (line 68). -/
def TerrainChunk.sampleTrace (tc : TerrainChunk) : List (ℤ × ℤ) :=
  (List.range (tc.rows + 1)).flatMap fun z =>
    (List.range (tc.cols + 1)).map fun x => tc.sampleCoord z x

/-- The translation `Transform::from_xyz(x, y, z)` computed in `to_bundle`
(lines 132-136):
`x = origin_vertex.0 * chunk_size.0 * quad_size.x`,
`y = (origin_vertex.1).clamp(NEG_INFINITY, 0) * chunk_size.1 * quad_size.y`,
`z = -(origin_vertex.1 * chunk_size.1) * quad_size.y`.
`clamp` with lower bound `-∞` leaves values `≤ 0` unchanged and caps positive
values at `0`, embedded as the explicit comparison below. -/
def TerrainChunk.world_offset (tc : TerrainChunk) : ℚ × ℚ × ℚ :=
  ((tc.origin_vertex.1 : ℚ) * (tc.cols : ℚ) * tc.quad_size.1,
   (if (tc.origin_vertex.2 : ℚ) > 0 then 0 else (tc.origin_vertex.2 : ℚ))
     * (tc.rows : ℚ) * tc.quad_size.2,
   -((tc.origin_vertex.2 : ℚ) * (tc.rows : ℚ)) * tc.quad_size.2)

/-- The initial 32-byte palette of `uv_debug_texture` (lines 164-167). -/
def initPalette : List ℕ :=
  [255, 102, 159, 255, 255, 159, 102, 255, 236, 255, 102, 255, 121, 255, 102, 255,
   102, 255, 198, 255, 102, 198, 255, 255, 121, 102, 255, 255, 236, 102, 255, 255]

/-- Rust `slice::rotate_right(4)`: the last four bytes move to the front. -/
def rotateRight4 (l : List ℕ) : List ℕ :=
  l.drop (l.length - 4) ++ l.take (l.length - 4)

/-- The write loop of `uv_debug_texture` (lines 170-174): for each remaining
row, copy the current palette into the data then rotate it right by 4 bytes. -/
def textureRows : ℕ → List ℕ → List ℕ
  | 0, _ => []
  | n + 1, pal => pal ++ textureRows n (rotateRight4 pal)

/-- An 8-bit RGBA image: Bevy `Image::new_fill` with `Extent3d{width, height, 1}`,
`TextureDimension::D2` and `TextureFormat::Rgba8UnormSrgb` (lines 176-185). -/
structure Image where
  width : ℕ
  height : ℕ
  data : List ℕ
  deriving DecidableEq, Repr

/-- `uv_debug_texture` (lines 161-186), with `TEXTURE_SIZE = 8`. -/
def uv_debug_texture : Image :=
  ⟨8, 8, textureRows 8 initPalette⟩

/-- Byte row `y` of the texture data: bytes `32*y` to `32*y + 31`. -/
def textureRow (y : ℕ) : List ℕ :=
  (uv_debug_texture.data.drop (32 * y)).take 32

/-- Sample chunk on the reference row (`origin_vertex.1 = 0`), used by
concrete instantiations below. -/
def tcZero : TerrainChunk := ⟨(1, 1), (2, 2), (0, 0), 0⟩

/-- Sample chunk strictly ahead of the reference row (`origin_vertex.1 = 1`). -/
def tcPos : TerrainChunk := ⟨(1, 1), (2, 2), (3, 1), 0⟩

/-- A concrete pure sampler. -/
def noiseLin : ℤ × ℤ → ℚ := fun p => ((p.1 + 2 * p.2 : ℤ) : ℚ)

/-! Generic lemmas about grids built with `List.range` and `flatMap`. -/

lemma flatMap_range_succ {α : Type} (g : ℕ → List α) (m : ℕ) :
    (List.range (m + 1)).flatMap g = (List.range m).flatMap g ++ g m := by
  rw [List.range_succ]
  simp

lemma length_flatMap_const {α : Type} (g : ℕ → List α) (n : ℕ)
    (hg : ∀ z, (g z).length = n) :
    ∀ m : ℕ, ((List.range m).flatMap g).length = m * n := by
  intro m
  induction m with
  | zero => simp
  | succ k ih =>
    rw [flatMap_range_succ, List.length_append, ih, hg, Nat.succ_mul]

lemma getElem_flatMap_const {α : Type} (g : ℕ → List α) (n : ℕ)
    (hg : ∀ z, (g z).length = n) :
    ∀ m z j : ℕ, z < m → j < n → ((List.range m).flatMap g)[n * z + j]? = (g z)[j]? := by
  intro m
  induction m with
  | zero => omega
  | succ k ih =>
    intro z j hz hj
    rw [flatMap_range_succ]
    rcases Nat.lt_or_ge z k with h | h
    · rw [List.getElem?_append_left, ih z j h hj]
      rw [length_flatMap_const g n hg k]
      calc n * z + j < n * z + n := by omega
        _ = n * (z + 1) := by ring
        _ ≤ n * k := Nat.mul_le_mul_left n h
        _ = k * n := Nat.mul_comm n k
    · have hzk : z = k := by omega
      subst hzk
      rw [List.getElem?_append_right]
      · rw [length_flatMap_const g n hg z, Nat.mul_comm z n, Nat.add_sub_cancel_left]
      · rw [length_flatMap_const g n hg z, Nat.mul_comm z n]
        omega

lemma mem_flatMap_range {α : Type} {a : α} (g : ℕ → List α) (m : ℕ) :
    a ∈ (List.range m).flatMap g ↔ ∃ z, z < m ∧ a ∈ g z := by
  simp [List.mem_flatMap, List.mem_range]

lemma Vec3.lerp_one (a b : Vec3) : a.lerp b 1 = b := by
  cases a
  cases b
  simp only [Vec3.lerp, Vec3.add, Vec3.sub, Vec3.smul, Vec3.mk.injEq]
  refine ⟨by ring, by ring, by ring⟩

lemma Vec3.lerp_zero (a b : Vec3) : a.lerp b 0 = a := by
  cases a
  cases b
  simp only [Vec3.lerp, Vec3.add, Vec3.sub, Vec3.smul, Vec3.mk.injEq]
  refine ⟨by ring, by ring, by ring⟩

/-- Vertex `(z, x)` of the position buffer sits at flat index
`(cols + 1) * z + x` and is the per-vertex position of the loop body. -/
lemma positions_getElem (tc : TerrainChunk) (noise : ℤ × ℤ → ℚ) (c45 s45 : ℚ)
    (z x : ℕ) (hz : z ≤ tc.rows) (hx : x ≤ tc.cols) :
    (tc.generate_mesh noise c45 s45).positions[(tc.cols + 1) * z + x]?
      = some (tc.vertexPosition noise c45 s45 z x) := by
  simp only [TerrainChunk.generate_mesh]
  rw [getElem_flatMap_const _ (tc.cols + 1) (fun w => by simp) (tc.rows + 1) z x
    (by omega) (by omega)]
  simp [List.getElem?_range (show x < tc.cols + 1 by omega)]

/-- Every index of one quad is below the vertex count. -/
lemma quadIndices_lt (cols rows z x : ℕ) (hz : z < rows) (hx : x < cols) :
    ∀ i ∈ quadIndices cols z x, i < (cols + 1) * (rows + 1) := by
  have h2 : (cols + 1) * (z + 1) ≤ (cols + 1) * rows := Nat.mul_le_mul_left _ hz
  intro i hi
  simp only [quadIndices, List.mem_cons, List.not_mem_nil, or_false] at hi
  rcases hi with h | h | h | h | h | h <;> subst h <;> nlinarith

/-- Distinct local vertices sample distinct global coordinates. -/
lemma sampleCoord_inj (tc : TerrainChunk) (z x z2 x2 : ℕ)
    (h : tc.sampleCoord z x = tc.sampleCoord z2 x2) : z = z2 ∧ x = x2 := by
  simp only [TerrainChunk.sampleCoord, Prod.mk.injEq] at h
  obtain ⟨h1, h2⟩ := h
  set K1 := tc.origin_vertex.1 * (tc.cols : ℤ) with hK1
  set K2 := tc.origin_vertex.2 * (tc.rows : ℤ) with hK2
  omega

lemma sampleTrace_nodup (tc : TerrainChunk) : tc.sampleTrace.Nodup := by
  rw [TerrainChunk.sampleTrace, List.nodup_flatMap]
  constructor
  · intro z _
    refine (List.nodup_range _).map ?_
    intro a b hab
    exact (sampleCoord_inj tc z a z b hab).2
  · refine List.Pairwise.imp ?_ (List.pairwise_lt_range _)
    intro a b hab c hca hcb
    rw [List.mem_map] at hca hcb
    obtain ⟨xa, _, ha⟩ := hca
    obtain ⟨xb, _, hb⟩ := hcb
    have := (sampleCoord_inj tc a xa b xb (ha.trans hb.symm)).1
    omega

lemma sampleCoord_mem_trace (tc : TerrainChunk) (z x : ℕ)
    (hz : z ≤ tc.rows) (hx : x ≤ tc.cols) :
    tc.sampleCoord z x ∈ tc.sampleTrace := by
  rw [TerrainChunk.sampleTrace, mem_flatMap_range]
  exact ⟨z, by omega, List.mem_map.mpr ⟨x, List.mem_range.mpr (by omega), rfl⟩⟩

/-- The six entries of one quad's index list, spelled out. -/
lemma quadIndices_getElem (cols z x : ℕ) :
    (quadIndices cols z x)[0]? = some ((cols + 1) * z + x + (cols + 1) + 1)
    ∧ (quadIndices cols z x)[1]? = some ((cols + 1) * z + x + 1)
    ∧ (quadIndices cols z x)[2]? = some ((cols + 1) * z + x + (cols + 1))
    ∧ (quadIndices cols z x)[3]? = some ((cols + 1) * z + x)
    ∧ (quadIndices cols z x)[4]? = some ((cols + 1) * z + x + (cols + 1))
    ∧ (quadIndices cols z x)[5]? = some ((cols + 1) * z + x + 1) :=
  ⟨rfl, rfl, rfl, rfl, rfl, rfl⟩

/-- Entry `j` of quad `(z, x)` sits at flat index `(cols * 6) * z + (6 * x + j)`
of the index buffer. -/
lemma indices_getElem (tc : TerrainChunk) (noise : ℤ × ℤ → ℚ) (c45 s45 : ℚ)
    (z x j : ℕ) (hz : z < tc.rows) (hx : x < tc.cols) (hj : j < 6) :
    (tc.generate_mesh noise c45 s45).indices[(tc.cols * 6) * z + (6 * x + j)]?
      = (quadIndices tc.cols z x)[j]? := by
  simp only [TerrainChunk.generate_mesh]
  rw [getElem_flatMap_const _ (tc.cols * 6)
      (fun w => length_flatMap_const _ 6 (fun v => by simp [quadIndices]) tc.cols)
      tc.rows z (6 * x + j) hz (by omega),
    getElem_flatMap_const _ 6 (fun v => by simp [quadIndices]) tc.cols x j hx hj]

lemma triangle_indices_distinct (q s : ℕ) (hs : 2 ≤ s) :
    (q + s + 1 ≠ q + 1 ∧ q + 1 ≠ q + s ∧ q + s + 1 ≠ q + s)
    ∧ (q ≠ q + s ∧ q + s ≠ q + 1 ∧ q ≠ q + 1) := by
  omega

/-! Claim theorems. -/

/-- C2: for every `ChunkSpec` with `grid_size = (c, r)`, `c, r ≥ 1`, and every
sampler, `generate_mesh` produces exactly `(c+1)*(r+1)` positions, normals and
UVs, and exactly `6*c*r` indices. -/
theorem C2_cardinality (tc : TerrainChunk) (noise : ℤ × ℤ → ℚ) (c45 s45 : ℚ)
    (_hc : 1 ≤ tc.cols) (_hr : 1 ≤ tc.rows) :
    (tc.generate_mesh noise c45 s45).positions.length = (tc.cols + 1) * (tc.rows + 1)
    ∧ (tc.generate_mesh noise c45 s45).normals.length = (tc.cols + 1) * (tc.rows + 1)
    ∧ (tc.generate_mesh noise c45 s45).uvs.length = (tc.cols + 1) * (tc.rows + 1)
    ∧ (tc.generate_mesh noise c45 s45).indices.length = 6 * (tc.cols * tc.rows) := by
  refine ⟨?_, ?_, ?_, ?_⟩
  · rw [TerrainChunk.generate_mesh, length_flatMap_const _ (tc.cols + 1)
      (fun z => by simp) (tc.rows + 1), Nat.mul_comm]
  · rw [TerrainChunk.generate_mesh, length_flatMap_const _ (tc.cols + 1)
      (fun z => by simp) (tc.rows + 1), Nat.mul_comm]
  · rw [TerrainChunk.generate_mesh, length_flatMap_const _ (tc.cols + 1)
      (fun z => by simp) (tc.rows + 1), Nat.mul_comm]
  · rw [TerrainChunk.generate_mesh, length_flatMap_const _ (tc.cols * 6)
      (fun z => length_flatMap_const _ 6 (fun x => by simp [quadIndices]) tc.cols) tc.rows]
    ring

/-- C2 witness: the cardinality theorem instantiated at a concrete chunk. -/
theorem C2_cardinality_witness :
    (1 ≤ (⟨(1, 1), (2, 3), (0, 0), 0⟩ : TerrainChunk).cols
      ∧ 1 ≤ (⟨(1, 1), (2, 3), (0, 0), 0⟩ : TerrainChunk).rows)
    ∧ ((⟨(1, 1), (2, 3), (0, 0), 0⟩ : TerrainChunk).generate_mesh (fun _ => 0) 1 1).positions.length = 12
    ∧ ((⟨(1, 1), (2, 3), (0, 0), 0⟩ : TerrainChunk).generate_mesh (fun _ => 0) 1 1).indices.length = 36 := by
  refine ⟨⟨by decide, by decide⟩, ?_, ?_⟩
  · exact (C2_cardinality ⟨(1, 1), (2, 3), (0, 0), 0⟩ (fun _ => 0) 1 1
      (by decide) (by decide)).1
  · exact (C2_cardinality ⟨(1, 1), (2, 3), (0, 0), 0⟩ (fun _ => 0) 1 1
      (by decide) (by decide)).2.2.2

/-- C1: for every chunk with `origin.y = 0`, `grid_size = (columns, rows)`
with `columns, rows ≥ 1`, and every sampler, each vertex position is the
linear interpolation of `sloped_with_noise` toward `unsloped` with ratio
`t = (rows - z) / rows`; the row at `z = 0` equals the unsloped position
`(x_position, 0, z_position)`, and the row at `z = rows` equals the
`sloped_with_noise` position (sloped base plus the sampled height rotated by
`rotate_x(45°)`), for the same sampled height. -/
theorem C1_blend_boundary (tc : TerrainChunk) (noise : ℤ × ℤ → ℚ) (c45 s45 : ℚ)
    (h0 : tc.origin_vertex.2 = 0) (_hc : 1 ≤ tc.cols) (hr : 1 ≤ tc.rows)
    (z x : ℕ) (hz : z ≤ tc.rows) (hx : x ≤ tc.cols) :
    (tc.generate_mesh noise c45 s45).positions[(tc.cols + 1) * z + x]?
      = some ((tc.target_position c45 s45 z x (noise (tc.sampleCoord z x))).lerp
          (tc.unsloped_position z x) (((tc.rows : ℚ) - (z : ℚ)) / (tc.rows : ℚ)))
    ∧ (z = 0 →
        (tc.generate_mesh noise c45 s45).positions[(tc.cols + 1) * z + x]?
          = some ⟨tc.x_position x, 0, tc.z_position z⟩)
    ∧ (z = tc.rows →
        (tc.generate_mesh noise c45 s45).positions[(tc.cols + 1) * z + x]?
          = some (tc.target_position c45 s45 z x (noise (tc.sampleCoord z x)))) := by
  have hrQ : ((tc.rows : ℚ)) ≠ 0 := Nat.cast_ne_zero.mpr (by omega)
  have hmain : (tc.generate_mesh noise c45 s45).positions[(tc.cols + 1) * z + x]?
      = some ((tc.target_position c45 s45 z x (noise (tc.sampleCoord z x))).lerp
          (tc.unsloped_position z x) (((tc.rows : ℚ) - (z : ℚ)) / (tc.rows : ℚ))) := by
    rw [positions_getElem tc noise c45 s45 z x hz hx]
    simp [TerrainChunk.vertexPosition, TerrainChunk.posFromHeight, h0,
      TerrainChunk.chunk_z_ratio]
  refine ⟨hmain, ?_, ?_⟩
  · rintro rfl
    rw [hmain]
    have hratio : ((tc.rows : ℚ) - ((0 : ℕ) : ℚ)) / (tc.rows : ℚ) = 1 := by
      rw [Nat.cast_zero, sub_zero, div_self hrQ]
    rw [hratio, Vec3.lerp_one]
    rfl
  · rintro rfl
    rw [hmain]
    have hratio : ((tc.rows : ℚ) - ((tc.rows : ℕ) : ℚ)) / (tc.rows : ℚ) = 0 := by
      rw [sub_self, zero_div]
    rw [hratio, Vec3.lerp_zero]

/-- C1 witness: at a concrete chunk on the reference row, the `z = 0` row is
the flat unsloped position. -/
theorem C1_blend_boundary_witness :
    tcZero.origin_vertex.2 = 0
    ∧ (tcZero.generate_mesh noiseLin 1 1).positions[(tcZero.cols + 1) * 0 + 1]?
      = some ⟨tcZero.x_position 1, 0, tcZero.z_position 0⟩ := by
  refine ⟨by decide, ?_⟩
  exact (C1_blend_boundary tcZero noiseLin 1 1 (by decide) (by decide) (by decide)
    0 1 (by decide) (by decide)).2.1 rfl

/-- C3: for every `ChunkSpec` with `grid_size = (c, r)`, `c, r ≥ 1`, and every
sampler, every index emitted by `generate_mesh` is strictly below
`(c+1)*(r+1)`, the number of vertices produced. -/
theorem C3_index_bounds (tc : TerrainChunk) (noise : ℤ × ℤ → ℚ) (c45 s45 : ℚ)
    (_hc : 1 ≤ tc.cols) (_hr : 1 ≤ tc.rows) :
    ∀ i ∈ (tc.generate_mesh noise c45 s45).indices, i < (tc.cols + 1) * (tc.rows + 1) := by
  intro i hi
  simp only [TerrainChunk.generate_mesh] at hi
  rw [mem_flatMap_range] at hi
  obtain ⟨z, hz, hi⟩ := hi
  rw [mem_flatMap_range] at hi
  obtain ⟨x, hx, hi⟩ := hi
  exact quadIndices_lt tc.cols tc.rows z x hz hx i hi

/-- C3 witness: the index bound instantiated at a concrete chunk. -/
theorem C3_index_bounds_witness :
    (1 ≤ tcZero.cols ∧ 1 ≤ tcZero.rows)
    ∧ ∀ i ∈ (tcZero.generate_mesh noiseLin 1 1).indices,
        i < (tcZero.cols + 1) * (tcZero.rows + 1) :=
  ⟨⟨by decide, by decide⟩, C3_index_bounds tcZero noiseLin 1 1 (by decide) (by decide)⟩

/-- C5: for every chunk with `origin.y > 0` and every sampler, every vertex
position produced by `generate_mesh` has y-coordinate exactly `0`, regardless
of the values the sampler returns. -/
theorem C5_flat_forward (tc : TerrainChunk) (noise : ℤ × ℤ → ℚ) (c45 s45 : ℚ)
    (hfwd : 0 < tc.origin_vertex.2) :
    ∀ p ∈ (tc.generate_mesh noise c45 s45).positions, p.y = 0 := by
  intro p hp
  simp only [TerrainChunk.generate_mesh] at hp
  rw [mem_flatMap_range] at hp
  obtain ⟨z, _, hp⟩ := hp
  rw [List.mem_map] at hp
  obtain ⟨x, _, rfl⟩ := hp
  simp [TerrainChunk.vertexPosition, TerrainChunk.posFromHeight, if_pos hfwd,
    TerrainChunk.unsloped_position]

/-- C5 witness: the flat-chunk property instantiated at a concrete forward
chunk and sampler. -/
theorem C5_flat_forward_witness :
    0 < tcPos.origin_vertex.2
    ∧ ∀ p ∈ (tcPos.generate_mesh noiseLin 1 1).positions, p.y = 0 :=
  ⟨by decide, C5_flat_forward tcPos noiseLin 1 1 (by decide)⟩

/-- C9: for every `ChunkSpec` and every sampler, every vertex normal emitted
by `generate_mesh` equals the world up axis `(0, 1, 0)`, in all three policy
branches, regardless of vertex displacement. -/
theorem C9_normals_up (tc : TerrainChunk) (noise : ℤ × ℤ → ℚ) (c45 s45 : ℚ) :
    ∀ nrm ∈ (tc.generate_mesh noise c45 s45).normals, nrm = Vec3.up := by
  intro nrm h
  simp only [TerrainChunk.generate_mesh] at h
  rw [mem_flatMap_range] at h
  obtain ⟨z, _, h⟩ := h
  rw [List.mem_map] at h
  obtain ⟨x, _, rfl⟩ := h
  rfl

/-- C4: for every vertex `(x, z)` of every chunk, the sampler is called
exactly once with the global sample coordinate
`sample_x = x + origin.x * columns`, `sample_z = (rows - z) + origin.y * rows`
(the local row index mirrored as `rows - z` before adding the chunk offset),
and the returned value is the height used for that vertex. -/
theorem C4_sample_coordinates (tc : TerrainChunk) (noise : ℤ × ℤ → ℚ) (c45 s45 : ℚ)
    (z x : ℕ) (hz : z ≤ tc.rows) (hx : x ≤ tc.cols) :
    tc.sampleCoord z x
      = ((x : ℤ) + tc.origin_vertex.1 * (tc.cols : ℤ),
         ((tc.rows : ℤ) - (z : ℤ)) + tc.origin_vertex.2 * (tc.rows : ℤ))
    ∧ (∃! i : Fin tc.sampleTrace.length, tc.sampleTrace.get i = tc.sampleCoord z x)
    ∧ (tc.generate_mesh noise c45 s45).positions[(tc.cols + 1) * z + x]?
        = some (tc.posFromHeight c45 s45 z x (noise (tc.sampleCoord z x))) := by
  refine ⟨rfl, ?_, ?_⟩
  · obtain ⟨i, hi⟩ := List.get_of_mem (sampleCoord_mem_trace tc z x hz hx)
    refine ⟨i, hi, ?_⟩
    intro j hj
    exact ((sampleTrace_nodup tc).get_inj_iff).mp (hj.trans hi.symm)
  · rw [positions_getElem tc noise c45 s45 z x hz hx]
    rfl

/-- C4 witness: the sampling facts instantiated at a concrete chunk and
vertex. -/
theorem C4_sample_coordinates_witness :
    (1 ≤ tcZero.rows ∧ 2 ≤ tcZero.cols)
    ∧ ((2 : ℕ) ≤ tcZero.cols → (1 : ℕ) ≤ tcZero.rows →
        tcZero.sampleCoord 1 2
          = ((2 : ℤ) + tcZero.origin_vertex.1 * (tcZero.cols : ℤ),
             ((tcZero.rows : ℤ) - (1 : ℤ)) + tcZero.origin_vertex.2 * (tcZero.rows : ℤ))
        ∧ (∃! i : Fin tcZero.sampleTrace.length,
            tcZero.sampleTrace.get i = tcZero.sampleCoord 1 2)
        ∧ (tcZero.generate_mesh noiseLin 1 1).positions[(tcZero.cols + 1) * 1 + 2]?
          = some (tcZero.posFromHeight 1 1 1 2 (noiseLin (tcZero.sampleCoord 1 2)))) := by
  refine ⟨⟨by decide, by decide⟩, fun _ _ => ?_⟩
  exact C4_sample_coordinates tcZero noiseLin 1 1 1 2 (by decide) (by decide)

/-- C6: for every `ChunkSpec` the placement offset equals
`(origin.x * columns * quad_size.x, min(origin.y, 0) * rows * quad_size.y,
-(origin.y * rows * quad_size.y))`; for `origin = (2, -3)`,
`grid_size = (10, 10)`, `quad_size = (2, 2)` it returns `(40, -60, 60)`. -/
theorem C6_world_offset (tc : TerrainChunk) :
    tc.world_offset
      = ((tc.origin_vertex.1 : ℚ) * (tc.cols : ℚ) * tc.quad_size.1,
         min ((tc.origin_vertex.2 : ℚ)) 0 * (tc.rows : ℚ) * tc.quad_size.2,
         -((tc.origin_vertex.2 : ℚ) * (tc.rows : ℚ) * tc.quad_size.2))
    ∧ (⟨(2, 2), (10, 10), (2, -3), 0⟩ : TerrainChunk).world_offset = (40, -60, 60) := by
  constructor
  · have hz3 : -(((tc.origin_vertex.2 : ℚ)) * (tc.rows : ℚ)) * tc.quad_size.2
        = -(((tc.origin_vertex.2 : ℚ)) * (tc.rows : ℚ) * tc.quad_size.2) := by ring
    rcases le_or_lt ((tc.origin_vertex.2 : ℚ)) 0 with h | h
    · rw [TerrainChunk.world_offset, if_neg (not_lt.mpr h), min_eq_left h, hz3]
    · rw [TerrainChunk.world_offset, if_pos h, min_eq_right h.le, hz3]
  · norm_num [TerrainChunk.world_offset, TerrainChunk.cols, TerrainChunk.rows]

/-- C7: mesh building is deterministic: for every `ChunkSpec` and samplers
that are the same pure function of their input coordinates, the two calls of
`generate_mesh` produce identical output sequences (positions, normals, UVs
and indices). -/
theorem C7_deterministic (tc : TerrainChunk) (noise1 noise2 : ℤ × ℤ → ℚ)
    (c45 s45 : ℚ) (hagree : ∀ p, noise1 p = noise2 p) :
    tc.generate_mesh noise1 c45 s45 = tc.generate_mesh noise2 c45 s45 := by
  have h : noise1 = noise2 := funext hagree
  rw [h]

/-- C7 witness: two pointwise-equal samplers yield the same mesh on a
concrete chunk. -/
theorem C7_deterministic_witness :
    tcZero.generate_mesh (fun p => ((p.1 : ℚ))) 1 1
      = tcZero.generate_mesh (fun p => ((p.1 : ℚ)) + 0) 1 1 :=
  C7_deterministic tcZero (fun p => ((p.1 : ℚ))) (fun p => ((p.1 : ℚ)) + 0) 1 1
    (fun p => by ring)

set_option maxRecDepth 8192 in
/-- C8: the debug texture generator always produces an 8×8 RGBA image of
exactly 256 bytes whose first row is the fixed 8-texel palette and in which
each subsequent row equals the previous row's palette rotated right by one
texel (4 bytes), wrapping around. -/
theorem C8_debug_texture :
    uv_debug_texture.width = 8
    ∧ uv_debug_texture.height = 8
    ∧ uv_debug_texture.data.length = 256
    ∧ textureRow 0 = initPalette
    ∧ ∀ y : Fin 7, textureRow (y.1 + 1) = rotateRight4 (textureRow y.1) := by
  refine ⟨rfl, rfl, by decide, by decide, by decide⟩

/-- C9 witness: the constant-normal property instantiated at a concrete
chunk and sampler. -/
theorem C9_normals_up_witness :
    (tcPos.generate_mesh noiseLin 1 1).normals ≠ []
    ∧ ∀ nrm ∈ (tcPos.generate_mesh noiseLin 1 1).normals, nrm = Vec3.up :=
  ⟨by decide, C9_normals_up tcPos noiseLin 1 1⟩

/-- C10: for every `ChunkSpec` with `grid_size = (c, r)`, `c, r ≥ 1`, every
emitted triangle (each consecutive triple of the index sequence) has three
pairwise-distinct vertex indices, so no degenerate triangles are generated. -/
theorem C10_triangles_nondegenerate (tc : TerrainChunk) (noise : ℤ × ℤ → ℚ)
    (c45 s45 : ℚ) (hc : 1 ≤ tc.cols) (_hr : 1 ≤ tc.rows)
    (t : ℕ) (ht : t < 2 * (tc.cols * tc.rows)) :
    ∃ a b d : ℕ,
      (tc.generate_mesh noise c45 s45).indices[3 * t]? = some a
      ∧ (tc.generate_mesh noise c45 s45).indices[3 * t + 1]? = some b
      ∧ (tc.generate_mesh noise c45 s45).indices[3 * t + 2]? = some d
      ∧ a ≠ b ∧ b ≠ d ∧ a ≠ d := by
  have hcols0 : 0 < 2 * tc.cols := by omega
  obtain ⟨z, rem, hzrem, hremlt, hz⟩ :
      ∃ z rem, t = 2 * tc.cols * z + rem ∧ rem < 2 * tc.cols ∧ z < tc.rows := by
    refine ⟨t / (2 * tc.cols), t % (2 * tc.cols),
      (Nat.div_add_mod t (2 * tc.cols)).symm, Nat.mod_lt t hcols0, ?_⟩
    rw [Nat.div_lt_iff_lt_mul hcols0]
    calc t < 2 * (tc.cols * tc.rows) := ht
      _ = tc.rows * (2 * tc.cols) := by ring
  obtain ⟨x, bb, hxb, hbb, hx⟩ :
      ∃ x bb, rem = 2 * x + bb ∧ bb < 2 ∧ x < tc.cols := by
    refine ⟨rem / 2, rem % 2, (Nat.div_add_mod rem 2).symm, Nat.mod_lt rem (by omega), ?_⟩
    omega
  interval_cases bb
  · have e0 : 3 * t = (tc.cols * 6) * z + (6 * x + 0) := by
      rw [hzrem, hxb]
      ring
    have e1 : 3 * t + 1 = (tc.cols * 6) * z + (6 * x + 1) := by
      rw [hzrem, hxb]
      ring
    have e2 : 3 * t + 2 = (tc.cols * 6) * z + (6 * x + 2) := by
      rw [hzrem, hxb]
      ring
    refine ⟨(tc.cols + 1) * z + x + (tc.cols + 1) + 1,
      (tc.cols + 1) * z + x + 1,
      (tc.cols + 1) * z + x + (tc.cols + 1), ?_, ?_, ?_, ?_, ?_, ?_⟩
    · rw [e0, indices_getElem tc noise c45 s45 z x 0 hz hx (by omega)]
      exact (quadIndices_getElem tc.cols z x).1
    · rw [e1, indices_getElem tc noise c45 s45 z x 1 hz hx (by omega)]
      exact (quadIndices_getElem tc.cols z x).2.1
    · rw [e2, indices_getElem tc noise c45 s45 z x 2 hz hx (by omega)]
      exact (quadIndices_getElem tc.cols z x).2.2.1
    · exact (triangle_indices_distinct ((tc.cols + 1) * z + x) (tc.cols + 1) (by omega)).1.1
    · exact (triangle_indices_distinct ((tc.cols + 1) * z + x) (tc.cols + 1) (by omega)).1.2.1
    · exact (triangle_indices_distinct ((tc.cols + 1) * z + x) (tc.cols + 1) (by omega)).1.2.2
  · have e0 : 3 * t = (tc.cols * 6) * z + (6 * x + 3) := by
      rw [hzrem, hxb]
      ring
    have e1 : 3 * t + 1 = (tc.cols * 6) * z + (6 * x + 4) := by
      rw [hzrem, hxb]
      ring
    have e2 : 3 * t + 2 = (tc.cols * 6) * z + (6 * x + 5) := by
      rw [hzrem, hxb]
      ring
    refine ⟨(tc.cols + 1) * z + x,
      (tc.cols + 1) * z + x + (tc.cols + 1),
      (tc.cols + 1) * z + x + 1, ?_, ?_, ?_, ?_, ?_, ?_⟩
    · rw [e0, indices_getElem tc noise c45 s45 z x 3 hz hx (by omega)]
      exact (quadIndices_getElem tc.cols z x).2.2.2.1
    · rw [e1, indices_getElem tc noise c45 s45 z x 4 hz hx (by omega)]
      exact (quadIndices_getElem tc.cols z x).2.2.2.2.1
    · rw [e2, indices_getElem tc noise c45 s45 z x 5 hz hx (by omega)]
      exact (quadIndices_getElem tc.cols z x).2.2.2.2.2
    · exact (triangle_indices_distinct ((tc.cols + 1) * z + x) (tc.cols + 1) (by omega)).2.1
    · exact (triangle_indices_distinct ((tc.cols + 1) * z + x) (tc.cols + 1) (by omega)).2.2.1
    · exact (triangle_indices_distinct ((tc.cols + 1) * z + x) (tc.cols + 1) (by omega)).2.2.2

/-- C10 witness: the first triangle of a concrete chunk has three distinct
indices. -/
theorem C10_triangles_nondegenerate_witness :
    (1 ≤ tcZero.cols ∧ 1 ≤ tcZero.rows ∧ (0 : ℕ) < 2 * (tcZero.cols * tcZero.rows))
    ∧ ∃ a b d : ℕ,
      (tcZero.generate_mesh noiseLin 1 1).indices[3 * 0]? = some a
      ∧ (tcZero.generate_mesh noiseLin 1 1).indices[3 * 0 + 1]? = some b
      ∧ (tcZero.generate_mesh noiseLin 1 1).indices[3 * 0 + 2]? = some d
      ∧ a ≠ b ∧ b ≠ d ∧ a ≠ d :=
  ⟨⟨by decide, by decide, by decide⟩,
    C10_triangles_nondegenerate tcZero noiseLin 1 1 (by decide) (by decide) 0 (by decide)⟩

end Cheese
